import Mathlib

/-!
Verification of the video-intelligence-plugin scripts.

This file shallowly embeds the pure computational content of the four
Python scripts of the repository:

* `app/documents/doc_ingest_chunk_embed.py` (text chunking, ingestion report)
* `app/context-box/live_context_box.py` (keyword extraction, semantic search
  dispatch, per-segment live-context output)
* `app/post-analysis/adversarial_analysis.py` (three-part LLM analysis report)
* `app/ingest/transcribe_diarize.py` (transcript JSON formatting)

External HTTP services (OpenAI, Supabase, speech models) are modelled as
explicit environments recording the responses the services would return;
the request parameters that only shape an HTTP request are kept as ordinary
function arguments.  Python strings are modelled as `List Char` / `String`,
Python numbers appearing in transcripts as `ℚ`, and fallible calls return
`Option` / `Except`.
-/

/-! ## Python string primitives -/

/-- Model of Python's whitespace test used by `str.split()` / `str.strip()`
(ASCII whitespace; exotic unicode whitespace is out of scope for these
scripts). -/
def pySpace (c : Char) : Bool := c.isWhitespace

/-- Accumulator loop for `pyWords`: `acc` holds the current word reversed. -/
def pyWordsAux (acc : List Char) : List Char → List (List Char)
  | [] => if acc = [] then [] else [acc.reverse]
  | c :: cs =>
    if pySpace c then
      if acc = [] then pyWordsAux [] cs else acc.reverse :: pyWordsAux [] cs
    else
      pyWordsAux (c :: acc) cs

/-- Model of Python `text.split()` (no separator argument): split on runs of
whitespace, discarding empty words. -/
def pyWords (l : List Char) : List (List Char) := pyWordsAux [] l

/-- Model of `" ".join(ws)` at the character-list level. -/
def joinWords : List (List Char) → List Char
  | [] => []
  | [w] => w
  | w :: ws => w ++ ' ' :: joinWords ws

/-- Model of Python `str.strip()`: drop leading and trailing whitespace. -/
def pyStrip (l : List Char) : List Char :=
  ((l.dropWhile pySpace).reverse.dropWhile pySpace).reverse

/-- Model of the Python slice `l[a:b]` (step 1), including the clamping of
negative and out-of-range indices. -/
def pySlice (l : List α) (a b : Int) : List α :=
  let n : Int := l.length
  let a' : Nat := (if a < 0 then max (n + a) 0 else min a n).toNat
  let b' : Nat := (if b < 0 then max (n + b) 0 else min b n).toNat
  (l.drop a').take (b' - a')

/-! ## `chunk_text` (doc_ingest_chunk_embed.py, lines 48-60)

The Python source is a `while start < len(words)` loop:

    words = text.split()
    chunks = []
    start = 0
    while start < len(words):
        end = start + chunk_size
        chunk = " ".join(words[start:end])
        chunks.append(chunk)
        start = end - overlap
    return chunks

`chunk_loop` is the loop itself, made total with an explicit fuel counter
(`none` = the fuel ran out before the loop condition became false); `start`
is an `Int` because `end - overlap` may go negative in Python when
`overlap > chunk_size`.  `chunk_text` is the function at its call site in
the script (default `chunk_size = 500`, `overlap = 50`), run with fuel
`words.length + 1`, which `chunk_loop_fuel_sufficient` below proves to be
enough. -/

def chunk_loop (w : List (List Char)) (chunk_size overlap : Int) :
    Nat → Int → Option (List (List Char))
  | 0, _ => none
  | fuel + 1, start =>
    if start < (w.length : Int) then
      match chunk_loop w chunk_size overlap fuel (start + chunk_size - overlap) with
      | some rest => some (joinWords (pySlice w start (start + chunk_size)) :: rest)
      | none => none
    else
      some []

/-- Model of `chunk_text(text)` with the default `chunk_size=500`,
`overlap=50` used by `ingest_document`. -/
def chunk_text (text : String) : List String :=
  let w := pyWords text.data
  match chunk_loop w 500 50 (w.length + 1) 0 with
  | some chunks => chunks.map fun l => ⟨l⟩
  | none => []

/-! Reference (proof-side) description of the chunk contents: the slices at
word level, defined by well-founded recursion under the genuine
precondition `overlap < chunk_size`. -/

def chunkSlices (w : List (List Char)) (chunk_size overlap : Nat)
    (h : overlap < chunk_size) (start : Nat) : List (List (List Char)) :=
  if _hs : start < w.length then
    (w.drop start).take chunk_size ::
      chunkSlices w chunk_size overlap h (start + (chunk_size - overlap))
  else
    []
termination_by w.length - start
decreasing_by
  have : 0 < chunk_size - overlap := Nat.sub_pos_of_lt h
  omega

/-! ## Basic lemmas on the primitives -/

theorem pySlice_of_nat (l : List α) (a b : Nat) :
    pySlice l (a : Int) (b : Int) = (l.drop a).take (b - a) := by
  unfold pySlice
  have ha : ¬ ((a : Int) < 0) := by omega
  have hb : ¬ ((b : Int) < 0) := by omega
  simp only [if_neg ha, if_neg hb]
  have h1 : (min (a : Int) (l.length : Int)).toNat = min a l.length := by omega
  have h2 : (min (b : Int) (l.length : Int)).toNat = min b l.length := by omega
  rw [h1, h2]
  apply List.ext_getElem
  · simp only [List.length_take, List.length_drop]
    omega
  · intro i hi1 hi2
    simp only [List.length_take, List.length_drop] at hi1 hi2
    simp only [List.getElem_take, List.getElem_drop]
    congr 1
    omega

theorem chunk_loop_fuel_sufficient (w : List (List Char)) (cs ov : Nat)
    (h : ov < cs) :
    ∀ (fuel s : Nat), w.length - s < fuel →
      chunk_loop w (cs : Int) (ov : Int) fuel (s : Int) =
        some ((chunkSlices w cs ov h s).map joinWords) := by
  intro fuel
  induction fuel with
  | zero => intro s hs; omega
  | succ fuel ih =>
    intro s hs
    rw [chunk_loop, chunkSlices]
    by_cases hlt : s < w.length
    · have hlt' : (s : Int) < (w.length : Int) := by exact_mod_cast hlt
      rw [if_pos hlt', dif_pos hlt]
      have hstep : (s : Int) + (cs : Int) - (ov : Int) =
          ((s + (cs - ov) : Nat) : Int) := by
        push_cast
        omega
      rw [hstep, ih (s + (cs - ov)) (by omega)]
      have hslice : (s : Int) + (cs : Int) = ((s + cs : Nat) : Int) := by
        push_cast
        ring
      rw [hslice, pySlice_of_nat]
      simp only [Nat.add_sub_cancel_left, List.map_cons]
    · have hlt' : ¬ ((s : Int) < (w.length : Int)) := by exact_mod_cast hlt
      rw [if_neg hlt', dif_neg hlt]
      simp

theorem chunkSlices_index_lt (w : List (List Char)) (cs ov : Nat)
    (h : ov < cs) :
    ∀ (k s : Nat), k < (chunkSlices w cs ov h s).length →
      s + k * (cs - ov) < w.length := by
  intro k
  induction k with
  | zero =>
    intro s hk
    rw [chunkSlices] at hk
    by_cases hlt : s < w.length
    · simpa using hlt
    · rw [dif_neg hlt] at hk
      simp at hk
  | succ k ih =>
    intro s hk
    rw [chunkSlices] at hk
    by_cases hlt : s < w.length
    · rw [dif_pos hlt] at hk
      simp only [List.length_cons] at hk
      have := ih (s + (cs - ov)) (by omega)
      have hd : 0 < cs - ov := by omega
      nlinarith [Nat.succ_mul k (cs - ov)]
    · rw [dif_neg hlt] at hk
      simp at hk

theorem chunkSlices_getElem? (w : List (List Char)) (cs ov : Nat) (h : ov < cs) :
    ∀ (i s : Nat), i < (chunkSlices w cs ov h s).length →
      (chunkSlices w cs ov h s)[i]? =
        some ((w.drop (s + i * (cs - ov))).take cs) := by
  intro i
  induction i with
  | zero =>
    intro s hi
    have hlt : s < w.length := by
      have := chunkSlices_index_lt w cs ov h 0 s hi
      omega
    rw [chunkSlices, dif_pos hlt]
    simp
  | succ i ih =>
    intro s hi
    have hlt : s < w.length := by
      have := chunkSlices_index_lt w cs ov h (i + 1) s hi
      omega
    have hi' : i < (chunkSlices w cs ov h (s + (cs - ov))).length := by
      rw [chunkSlices, dif_pos hlt] at hi
      simpa using hi
    rw [chunkSlices, dif_pos hlt]
    rw [List.getElem?_cons_succ, ih (s + (cs - ov)) hi']
    congr 2
    ring_nf

theorem chunkSlices_full_length (w : List (List Char)) (cs ov : Nat)
    (h : ov < cs) (h2 : cs ≤ 2 * (cs - ov)) (i s : Nat)
    (hi : i + 2 < (chunkSlices w cs ov h s).length) :
    ∀ c, (chunkSlices w cs ov h s)[i]? = some c → c.length = cs := by
  intro c hc
  rw [chunkSlices_getElem? w cs ov h i s (by omega)] at hc
  have hfar := chunkSlices_index_lt w cs ov h (i + 2) s hi
  have hfit : s + i * (cs - ov) + cs ≤ w.length := by
    have : (i + 2) * (cs - ov) = i * (cs - ov) + 2 * (cs - ov) := by ring
    omega
  have : c = (w.drop (s + i * (cs - ov))).take cs := by
    injection hc with hc'
    exact hc'.symm
  subst this
  simp only [List.length_take, List.length_drop]
  omega

theorem chunkSlices_overlap (w : List (List Char)) (cs ov : Nat)
    (h : ov < cs) (i s : Nat)
    (hi : i + 1 < (chunkSlices w cs ov h s).length) :
    ∀ c c', (chunkSlices w cs ov h s)[i]? = some c →
      (chunkSlices w cs ov h s)[i + 1]? = some c' →
      c.drop (cs - ov) = c'.take ov ∧ (c.length = cs → (c'.take ov).length = ov) := by
  intro c c' hc hc'
  rw [chunkSlices_getElem? w cs ov h i s (by omega)] at hc
  rw [chunkSlices_getElem? w cs ov h (i + 1) s hi] at hc'
  injection hc with hc
  injection hc' with hc'
  set p := s + i * (cs - ov) with hp
  have hp' : s + (i + 1) * (cs - ov) = p + (cs - ov) := by rw [hp]; ring
  rw [hp'] at hc'
  subst hc hc'
  constructor
  · rw [List.drop_take, List.drop_drop]
    rw [List.take_take]
    have h1 : cs - (cs - ov) = ov := by omega
    have h2 : min ov cs = ov := by omega
    rw [h1, h2, Nat.add_comm]
  · intro hlen
    simp only [List.length_take, List.length_drop] at hlen ⊢
    omega

theorem chunkSlices_cover_aux (w : List (List Char)) (cs ov : Nat)
    (h : ov < cs) :
    ∀ (m s j : Nat), w.length - s ≤ m → s ≤ j → (hj : j < w.length) →
      ∃ c ∈ chunkSlices w cs ov h s, w.get ⟨j, hj⟩ ∈ c := by
  intro m
  induction m with
  | zero => intro s j hm hsj hj; omega
  | succ m ih =>
    intro s j hm hsj hj
    have hd : 0 < cs - ov := by omega
    have hlt : s < w.length := by omega
    rw [chunkSlices, dif_pos hlt]
    by_cases hcase : j < s + cs
    · refine ⟨(w.drop s).take cs, List.mem_cons_self _ _, ?_⟩
      have hb : j - s < ((w.drop s).take cs).length := by
        simp only [List.length_take, List.length_drop]
        omega
      have hval : ((w.drop s).take cs).get ⟨j - s, hb⟩ = w.get ⟨j, hj⟩ := by
        simp only [List.get_eq_getElem, List.getElem_take, List.getElem_drop]
        congr 1
        omega
      rw [← hval]
      exact List.get_mem _ _ hb
    · obtain ⟨c, hc, hmem⟩ := ih (s + (cs - ov)) j (by omega) (by omega) hj
      exact ⟨c, List.mem_cons_of_mem _ hc, hmem⟩

theorem chunkSlices_cover (w : List (List Char)) (cs ov : Nat)
    (h : ov < cs) (j : Nat) (hj : j < w.length) :
    ∃ c ∈ chunkSlices w cs ov h 0, w.get ⟨j, hj⟩ ∈ c :=
  chunkSlices_cover_aux w cs ov h w.length 0 j (by omega) (by omega) hj

theorem pyWordsAux_wf :
    ∀ (l acc : List Char), (∀ c ∈ acc, pySpace c = false) →
      ∀ wd ∈ pyWordsAux acc l, wd ≠ [] ∧ ∀ c ∈ wd, pySpace c = false := by
  intro l
  induction l with
  | nil =>
    intro acc hacc wd hwd
    rw [pyWordsAux] at hwd
    by_cases hacc0 : acc = []
    · rw [if_pos hacc0] at hwd
      simp at hwd
    · rw [if_neg hacc0] at hwd
      simp only [List.mem_singleton] at hwd
      subst hwd
      refine ⟨by simpa using hacc0, ?_⟩
      intro c hc
      exact hacc c (List.mem_reverse.1 hc)
  | cons x xs ih =>
    intro acc hacc wd hwd
    rw [pyWordsAux] at hwd
    by_cases hsp : pySpace x
    · rw [if_pos hsp] at hwd
      by_cases hacc0 : acc = []
      · rw [if_pos hacc0] at hwd
        exact ih [] (by simp) wd hwd
      · rw [if_neg hacc0] at hwd
        rcases List.mem_cons.1 hwd with hEq | hmem
        · subst hEq
          refine ⟨by simpa using hacc0, ?_⟩
          intro c hc
          exact hacc c (List.mem_reverse.1 hc)
        · exact ih [] (by simp) wd hmem
    · rw [if_neg hsp] at hwd
      refine ih (x :: acc) ?_ wd hwd
      intro c hc
      rcases List.mem_cons.1 hc with hEq | hmem
      · subst hEq
        simpa using hsp
      · exact hacc c hmem

theorem pyWords_wf (l : List Char) :
    ∀ wd ∈ pyWords l, wd ≠ [] ∧ ∀ c ∈ wd, pySpace c = false :=
  pyWordsAux_wf l [] (by simp)

theorem pyWordsAux_append (wd : List Char) :
    wd ≠ [] → (∀ c ∈ wd, pySpace c = false) →
    ∀ (acc l : List Char),
      pyWordsAux acc (wd ++ l) = pyWordsAux (wd.reverse ++ acc) l := by
  induction wd with
  | nil => intro hne; exact absurd rfl hne
  | cons x xs ih =>
    intro _ hns acc l
    have hx : pySpace x = false := hns x (List.mem_cons_self _ _)
    rw [List.cons_append, pyWordsAux, if_neg (by simp [hx])]
    by_cases hxs : xs = []
    · subst hxs
      simp
    · rw [ih hxs (fun c hc => hns c (List.mem_cons_of_mem _ hc)) (x :: acc) l]
      congr 1
      simp

theorem pyWords_joinWords :
    ∀ ws : List (List Char),
      (∀ wd ∈ ws, wd ≠ [] ∧ ∀ c ∈ wd, pySpace c = false) →
      pyWords (joinWords ws) = ws := by
  intro ws
  induction ws with
  | nil => intro _; rfl
  | cons wd ws' ih =>
    intro hwf
    obtain ⟨hne, hns⟩ := hwf wd (List.mem_cons_self _ _)
    cases ws' with
    | nil =>
      show pyWords (joinWords [wd]) = [wd]
      have : joinWords [wd] = wd := rfl
      rw [this]
      unfold pyWords
      rw [← List.append_nil wd, pyWordsAux_append wd hne hns [] []]
      rw [List.append_nil, pyWordsAux]
      rw [if_neg (by simpa using hne)]
      simp
    | cons y ys =>
      have hjoin : joinWords (wd :: y :: ys) = wd ++ ' ' :: joinWords (y :: ys) := rfl
      rw [hjoin]
      unfold pyWords
      rw [pyWordsAux_append wd hne hns [] (' ' :: joinWords (y :: ys))]
      rw [List.append_nil, pyWordsAux, if_pos (by simp [pySpace])]
      rw [if_neg (by simpa using hne)]
      rw [List.reverse_reverse]
      have := ih (fun v hv => hwf v (List.mem_cons_of_mem _ hv))
      unfold pyWords at this
      rw [this]

theorem chunk_text_eq_chunkSlices (text : String) :
    chunk_text text =
      ((chunkSlices (pyWords text.data) 500 50 (by omega) 0).map joinWords).map
        (fun l => (⟨l⟩ : String)) := by
  have key := chunk_loop_fuel_sufficient (pyWords text.data) 500 50 (by omega)
    ((pyWords text.data).length + 1) 0 (by omega)
  push_cast at key
  unfold chunk_text
  simp only [key]

theorem chunkSlices_mem_sub (w : List (List Char)) (cs ov : Nat) (h : ov < cs)
    (c : List (List Char)) (hc : c ∈ chunkSlices w cs ov h 0) :
    ∀ x ∈ c, x ∈ w := by
  obtain ⟨i, hi, hget⟩ := List.getElem_of_mem hc
  have hclosed := chunkSlices_getElem? w cs ov h i 0 hi
  rw [List.getElem?_eq_getElem hi, hget] at hclosed
  injection hclosed with hclosed
  subst hclosed
  intro x hx
  exact List.mem_of_mem_drop (List.mem_of_mem_take hx)

theorem pyWords_data_chunk (text : String) (c : List (List Char))
    (hc : c ∈ chunkSlices (pyWords text.data) 500 50 (by omega) 0) :
    pyWords (joinWords c) = c := by
  apply pyWords_joinWords
  intro wd hwd
  exact pyWords_wf text.data wd
    (chunkSlices_mem_sub (pyWords text.data) 500 50 (by omega) c hc wd hwd)

theorem chunk_text_getWords (text : String) (i : Nat) (c : String)
    (hc : (chunk_text text)[i]? = some c) :
    ∃ ci, (chunkSlices (pyWords text.data) 500 50 (by omega) 0)[i]? = some ci ∧
      pyWords c.data = ci := by
  rw [chunk_text_eq_chunkSlices text, List.getElem?_map, List.getElem?_map] at hc
  cases hcs : (chunkSlices (pyWords text.data) 500 50 (by omega) 0)[i]? with
  | none => rw [hcs] at hc; simp at hc
  | some ci =>
    rw [hcs] at hc
    simp only [Option.map_some'] at hc
    injection hc with hc
    have hmem : ci ∈ chunkSlices (pyWords text.data) 500 50 (by omega) 0 := by
      have h' := List.getElem?_eq_some.1 hcs
      obtain ⟨hlt, hEq⟩ := h'
      exact hEq ▸ List.getElem_mem hlt
    refine ⟨ci, rfl, ?_⟩
    rw [← hc]
    exact pyWords_data_chunk text ci hmem

theorem chunk_text_length_eq (text : String) :
    (chunk_text text).length =
      (chunkSlices (pyWords text.data) 500 50 (by omega) 0).length := by
  rw [chunk_text_eq_chunkSlices]
  simp

/-- C1 (amended): with the default `chunk_size = 500`, `overlap = 50`,
`chunk_text` splits the whitespace-separated word sequence of the input into
chunks such that (i) every chunk except possibly the last two contains
exactly 500 words, (ii) whenever a chunk contains exactly 500 words it
shares exactly its trailing 50 words with the following chunk (in general a
consecutive pair shares the earlier chunk's words from position 450 on,
which is a prefix of the later chunk), and (iii) every word of the input
appears in at least one chunk.  (The original claim, that every chunk except
possibly the last has exactly 500 words and every consecutive pair shares
exactly 50 words, fails for inputs of 451-499 words; see the
counterexample.) -/
theorem chunk_text_default_spec (text : String) :
    (∀ i c, i + 2 < (chunk_text text).length →
      (chunk_text text)[i]? = some c → (pyWords c.data).length = 500) ∧
    (∀ i c c', (chunk_text text)[i]? = some c →
      (chunk_text text)[i + 1]? = some c' →
      (pyWords c.data).drop 450 = (pyWords c'.data).take 50 ∧
      ((pyWords c.data).length = 500 →
        ((pyWords c'.data).take 50).length = 50)) ∧
    (∀ wd ∈ pyWords text.data, ∃ c ∈ chunk_text text, wd ∈ pyWords c.data) := by
  refine ⟨?_, ?_, ?_⟩
  · intro i c hlen hc
    obtain ⟨ci, hcs, hwords⟩ := chunk_text_getWords text i c hc
    rw [chunk_text_length_eq] at hlen
    have := chunkSlices_full_length (pyWords text.data) 500 50 (by omega)
      (by omega) i 0 hlen ci hcs
    rw [hwords]
    exact this
  · intro i c c' hc hc'
    obtain ⟨ci, hcs, hwords⟩ := chunk_text_getWords text i c hc
    obtain ⟨ci', hcs', hwords'⟩ := chunk_text_getWords text (i + 1) c' hc'
    have hlen : i + 1 < (chunkSlices (pyWords text.data) 500 50 (by omega) 0).length := by
      have h' := List.getElem?_eq_some.1 hcs'
      exact h'.1
    have := chunkSlices_overlap (pyWords text.data) 500 50 (by omega) i 0 hlen
      ci ci' hcs hcs'
    rw [hwords, hwords']
    exact this
  · intro wd hwd
    obtain ⟨⟨j, hj⟩, hget⟩ := List.mem_iff_get.1 hwd
    obtain ⟨ci, hmem, hin⟩ :=
      chunkSlices_cover (pyWords text.data) 500 50 (by omega) j hj
    refine ⟨⟨joinWords ci⟩, ?_, ?_⟩
    · rw [chunk_text_eq_chunkSlices]
      exact List.mem_map_of_mem _ (List.mem_map_of_mem joinWords hmem)
    · show wd ∈ pyWords (joinWords ci)
      rw [pyWords_data_chunk text ci hmem]
      rw [← hget]
      exact hin

/-- Concrete input for the C1 counterexample: 451 whitespace-separated
one-letter words.  `chunk_text` produces two chunks of 451 and 1 words:
the first (non-last) chunk does not have 500 words, and the two chunks
share 1 word, not 50. -/
def t451 : String := ⟨joinWords (List.replicate 451 ['w'])⟩

set_option maxRecDepth 400000 in
/-- C1 (counterexample): on a 451-word input, `chunk_text` (default
`chunk_size = 500`, `overlap = 50`) yields chunks of 451 and 1 words, so
the claim that every chunk except possibly the last contains exactly 500
words (and that consecutive chunks share exactly 50 words) is false. -/
theorem chunk_text_default_counterexample :
    ((chunk_text t451).map fun s => (pyWords s.data).length) = [451, 1] ∧
    ¬ (∀ i c, i + 1 < (chunk_text t451).length →
        (chunk_text t451)[i]? = some c → (pyWords c.data).length = 500) := by
  refine ⟨by decide, fun h => ?_⟩
  have h0 := h 0 t451 (by decide) (by decide)
  exact absurd h0 (by decide)

/-- Concrete input for the C1 witness: 901 one-letter words, giving three
chunks of 500, 451 and 1 words. -/
def t901 : String := ⟨joinWords (List.replicate 901 ['w'])⟩

/-- First chunk of `chunk_text t901`: 500 one-letter words. -/
def u500 : String := ⟨joinWords (List.replicate 500 ['w'])⟩

/-- Second chunk of `chunk_text t901`: 451 one-letter words. -/
def u451 : String := ⟨joinWords (List.replicate 451 ['w'])⟩

set_option maxRecDepth 400000 in
/-- C1 (witness): the amended chunking specification instantiated on a
concrete 901-word input. -/
theorem chunk_text_default_spec_witness :
    ((0 : Nat) + 2 < (chunk_text t901).length ∧
      (chunk_text t901)[(0 : Nat)]? = some u500 ∧
      (pyWords u500.data).length = 500) ∧
    ((chunk_text t901)[(0 : Nat) + 1]? = some u451 ∧
      (pyWords u500.data).drop 450 = (pyWords u451.data).take 50 ∧
      ((pyWords u451.data).take 50).length = 50) ∧
    (['w'] ∈ pyWords t901.data ∧
      ∃ c ∈ chunk_text t901, ['w'] ∈ pyWords c.data) := by
  have hspec := chunk_text_default_spec t901
  refine ⟨⟨by decide, by decide, ?_⟩, ⟨by decide, ?_, ?_⟩, by decide, ?_⟩
  · exact hspec.1 0 u500 (by decide) (by decide)
  · exact (hspec.2.1 0 u500 u451 (by decide) (by decide)).1
  · exact (hspec.2.1 0 u500 u451 (by decide) (by decide)).2 (by decide)
  · exact hspec.2.2 ['w'] (by decide)

theorem chunk_loop_isSome_of_lt (w : List (List Char)) (cs ov : Int) :
    ∀ (k : Nat) (s : Int), (w.length : Int) ≤ s + k * (cs - ov) →
      (chunk_loop w cs ov (k + 1) s).isSome := by
  intro k
  induction k with
  | zero =>
    intro s hk
    rw [chunk_loop]
    rw [if_neg (by omega)]
    rfl
  | succ k ih =>
    intro s hk
    rw [chunk_loop]
    by_cases hlt : s < (w.length : Int)
    · rw [if_pos hlt]
      have hrec := ih (s + cs - ov) (by push_cast at hk ⊢; nlinarith)
      cases hr : chunk_loop w cs ov (k + 1) (s + cs - ov) with
      | none => rw [hr] at hrec; simp at hrec
      | some r => rfl
    · rw [if_neg hlt]
      rfl

theorem chunk_loop_none_of_le (w : List (List Char)) (cs ov : Int)
    (h : cs ≤ ov) :
    ∀ (fuel : Nat) (s : Int), s < (w.length : Int) →
      chunk_loop w cs ov fuel s = none := by
  intro fuel
  induction fuel with
  | zero => intro s _; rfl
  | succ fuel ih =>
    intro s hs
    rw [chunk_loop, if_pos hs, ih (s + cs - ov) (by omega)]

/-- C8 (amended): the loop of `chunk_text` terminates for every input
whenever `overlap < chunk_size` (fuel `words.length + 1` always suffices,
because each iteration advances `start` by `chunk_size - overlap ≥ 1`),
and whenever `chunk_size ≤ overlap` it fails to terminate on every text
with at least one word, whatever the fuel — so `overlap < chunk_size` is a
genuine precondition.  (The original claim's "any text with at least
chunk_size words" is refuted by `chunk_size = 0` on the empty text; see
the counterexample.) -/
theorem chunk_loop_termination_spec :
    (∀ (w : List (List Char)) (cs ov : Int), ov < cs →
      (chunk_loop w cs ov (w.length + 1) 0).isSome) ∧
    (∀ (w : List (List Char)) (cs ov : Int), cs ≤ ov → w ≠ [] →
      ∀ fuel, chunk_loop w cs ov fuel 0 = none) := by
  constructor
  · intro w cs ov h
    apply chunk_loop_isSome_of_lt w cs ov w.length 0
    have h1 : (1 : Int) ≤ cs - ov := by omega
    have h2 : (0 : Int) ≤ (w.length : Int) := by positivity
    nlinarith
  · intro w cs ov h hne fuel
    apply chunk_loop_none_of_le w cs ov h fuel 0
    have : w.length ≠ 0 := fun h0 => hne (List.length_eq_zero.1 h0)
    omega

/-- C8 (counterexample): with `chunk_size = 0 ≤ overlap = 0`, the empty
text has at least `chunk_size` (= 0) words, yet the loop terminates at
once — refuting the original claim that with `chunk_size ≤ overlap` the
loop terminates on no text with at least `chunk_size` words. -/
theorem chunk_loop_termination_counterexample :
    (0 : Int) ≤ 0 ∧ (0 : Int) ≤ ((pyWords "".data).length : Int) ∧
    (chunk_loop (pyWords "".data) 0 0 1 0).isSome := by decide

/-- C8 (witness): termination behaviour instantiated on concrete inputs:
a one-word text chunks successfully with `chunk_size = 2 > overlap = 0`,
and loops forever (here: fuel 5 is exhausted) with
`chunk_size = 1 ≤ overlap = 1`. -/
theorem chunk_loop_termination_spec_witness :
    ((0 : Int) < 2 ∧ (chunk_loop [['a']] 2 0 ([['a']].length + 1) 0).isSome) ∧
    ((1 : Int) ≤ 1 ∧ ([['a']] : List (List Char)) ≠ [] ∧
      chunk_loop [['a']] 1 1 5 0 = none) :=
  ⟨⟨by decide, chunk_loop_termination_spec.1 [['a']] 2 0 (by decide)⟩,
   ⟨by decide, by decide, chunk_loop_termination_spec.2 [['a']] 1 1 (by decide)
      (by decide) 5⟩⟩

/-! ## `extract_keywords` (live_context_box.py, lines 27-59)

The source tokenizes with `re.findall(r'\b[a-zA-Z]{3,}\b', text.lower())`,
filters a hard-coded stopword set, counts frequencies in a dict (insertion
ordered), sorts by count with `sorted(..., key=lambda x: x[1], reverse=True)`
(a stable sort), and returns the first `max_keywords` words. -/

theorem uint32_le_iff (a b : UInt32) : a ≤ b ↔ a.toNat ≤ b.toNat := by
  rw [UInt32.le_def, BitVec.le_def]
  rfl

theorem char_toLower_lower (c : Char) (h : (Char.toLower c).isAlpha = true) :
    (Char.toLower c).isLower = true := by
  unfold Char.toLower at h ⊢
  by_cases hc : c.toNat ≥ 65 ∧ c.toNat ≤ 90
  · rw [if_pos hc]
    have hvalid : (c.toNat + 32).isValidChar := Or.inl (by omega)
    have hval : (Char.ofNat (c.toNat + 32)).val.toNat = c.toNat + 32 := by
      rw [Char.ofNat, dif_pos hvalid]
      rfl
    simp only [Char.isLower, Bool.and_eq_true, decide_eq_true_eq]
    constructor
    · show (97 : UInt32) ≤ _
      rw [uint32_le_iff]
      show 97 ≤ (Char.ofNat (c.toNat + 32)).val.toNat
      omega
    · rw [uint32_le_iff]
      show (Char.ofNat (c.toNat + 32)).val.toNat ≤ 122
      omega
  · rw [if_neg hc] at h ⊢
    simp only [Char.isAlpha, Bool.or_eq_true] at h
    rcases h with h | h
    · exfalso
      simp only [Char.isUpper, Bool.and_eq_true, decide_eq_true_eq] at h
      obtain ⟨h1, h2⟩ := h
      have h1' : (65 : UInt32) ≤ c.val := h1
      have h2' : c.val ≤ (90 : UInt32) := h2
      rw [uint32_le_iff] at h1' h2'
      exact hc ⟨h1', h2'⟩
    · exact h

/-- Word-character test of the regex `\w` class underlying `\b` boundaries
(letters, digits, underscore; modelled on the ASCII range these scripts
process). -/
def wordChar (c : Char) : Bool := c.isAlphanum || c = '_'

/-- Scanner for `re.findall(r'\b[a-zA-Z]{3,}\b', s)`: `prevW` records
whether the previous character was a word character (so whether a `\b`
boundary can occur here), `acc` holds (reversed) the letter run currently
being collected, which always started at a valid boundary.  A run is
emitted when it ends at a boundary (end of input, or a non-word character)
and has length at least 3; runs adjacent to digits or underscores are
discarded, exactly as the regex backtracking does. -/
def findTokensAux : Bool → List Char → List Char → List (List Char)
  | _, acc, [] => if 3 ≤ acc.length then [acc.reverse] else []
  | prevW, acc, c :: cs =>
    if c.isAlpha then
      if acc = [] then
        if prevW then findTokensAux true [] cs else findTokensAux true [c] cs
      else
        findTokensAux true (c :: acc) cs
    else
      (if wordChar c = false ∧ 3 ≤ acc.length then [acc.reverse] else []) ++
        findTokensAux (wordChar c) [] cs

/-- Model of `re.findall(r'\b[a-zA-Z]{3,}\b', text.lower())`. -/
def tokenize (text : String) : List String :=
  (findTokensAux false [] (text.data.map Char.toLower)).map fun l => ⟨l⟩

/-- The hard-coded stopword set (live_context_box.py lines 33-46). -/
def stopwords : List String := [
  "the", "a", "an", "is", "are", "was", "were", "be", "been", "being",
  "have", "has", "had", "do", "does", "did", "will", "would", "could",
  "should", "may", "might", "can", "must", "shall", "to", "of", "in",
  "for", "on", "with", "at", "by", "from", "as", "into", "through",
  "during", "before", "after", "above", "below", "between", "under",
  "again", "further", "then", "once", "here", "there", "when", "where",
  "why", "how", "all", "each", "few", "more", "most", "other", "some",
  "such", "no", "nor", "not", "only", "own", "same", "so", "than",
  "too", "very", "just", "and", "but", "if", "or", "because", "until",
  "while", "this", "that", "these", "those", "i", "you", "he", "she",
  "it", "we", "they", "what", "which", "who", "whom", "its", "his",
  "her", "their", "our", "my", "your", "up", "out", "about", "over"]

/-- The tokens surviving the stopword filter
(`filtered = [w for w in words if w not in stopwords]`). -/
def filteredWords (text : String) : List String :=
  (tokenize text).filter fun w => !(stopwords.contains w)

/-- One step of the frequency count `freq[w] = freq.get(w, 0) + 1` on an
insertion-ordered association list (Python dicts preserve insertion
order). -/
def bump (w : String) : List (String × Nat) → List (String × Nat)
  | [] => [(w, 1)]
  | (x, n) :: r => if x = w then (x, n + 1) :: r else (x, n) :: bump w r

/-- The `freq` dict after counting all tokens, as `freq.items()` would list
it (first-occurrence order). -/
def buildFreq (ws : List String) : List (String × Nat) :=
  ws.foldl (fun acc w => bump w acc) []

/-- Stable descending insertion: the new entry goes after all entries with
a count greater than or equal to its own, which is how Python's stable
`sorted(..., key=lambda x: x[1], reverse=True)` orders ties (by first
occurrence). -/
def insertDesc (p : String × Nat) : List (String × Nat) → List (String × Nat)
  | [] => [p]
  | q :: qs => if q.2 < p.2 then p :: q :: qs else q :: insertDesc p qs

/-- Model of `sorted(freq.items(), key=lambda x: x[1], reverse=True)`. -/
def sortDesc (l : List (String × Nat)) : List (String × Nat) :=
  l.foldl (fun acc p => insertDesc p acc) []

/-- Model of `extract_keywords` (default `max_keywords = 5` at its call
site): `[w[0] for w in sorted_words[:max_keywords]]`. -/
def extract_keywords (text : String) (max_keywords : Nat) : List String :=
  ((sortDesc (buildFreq (filteredWords text))).take max_keywords).map Prod.fst

theorem findTokensAux_wf :
    ∀ (l : List Char) (prevW : Bool) (acc : List Char),
      (∀ c ∈ acc, c.isAlpha = true ∧ c.isLower = true) →
      (∀ c ∈ l, c.isAlpha = true → c.isLower = true) →
      ∀ t ∈ findTokensAux prevW acc l,
        3 ≤ t.length ∧ ∀ c ∈ t, c.isAlpha = true ∧ c.isLower = true := by
  intro l
  induction l with
  | nil =>
    intro prevW acc hacc _ t ht
    rw [findTokensAux] at ht
    by_cases h3 : 3 ≤ acc.length
    · rw [if_pos h3] at ht
      simp only [List.mem_singleton] at ht
      subst ht
      exact ⟨by simpa using h3, fun c hc => hacc c (List.mem_reverse.1 hc)⟩
    · rw [if_neg h3] at ht
      simp at ht
  | cons c cs ih =>
    intro prevW acc hacc hl t ht
    have hl' : ∀ d ∈ cs, d.isAlpha = true → d.isLower = true :=
      fun d hd => hl d (List.mem_cons_of_mem _ hd)
    have hc' : c.isAlpha = true → c.isLower = true :=
      hl c (List.mem_cons_self _ _)
    rw [findTokensAux] at ht
    by_cases halpha : c.isAlpha
    · rw [if_pos halpha] at ht
      by_cases hacc0 : acc = []
      · rw [if_pos hacc0] at ht
        by_cases hprev : prevW
        · rw [if_pos hprev] at ht
          exact ih true [] (by simp) hl' t ht
        · rw [if_neg hprev] at ht
          refine ih true [c] ?_ hl' t ht
          intro d hd
          simp only [List.mem_singleton] at hd
          subst hd
          exact ⟨halpha, hc' halpha⟩
      · rw [if_neg hacc0] at ht
        refine ih true (c :: acc) ?_ hl' t ht
        intro d hd
        rcases List.mem_cons.1 hd with hEq | hmem
        · subst hEq
          exact ⟨halpha, hc' halpha⟩
        · exact hacc d hmem
    · rw [if_neg halpha] at ht
      rcases List.mem_append.1 ht with hem | hrec
      · by_cases hcond : wordChar c = false ∧ 3 ≤ acc.length
        · rw [if_pos hcond] at hem
          simp only [List.mem_singleton] at hem
          subst hem
          exact ⟨by simpa using hcond.2, fun d hd => hacc d (List.mem_reverse.1 hd)⟩
        · rw [if_neg hcond] at hem
          simp at hem
      · exact ih (wordChar c) [] (by simp) hl' t hrec

theorem tokenize_wf (text : String) :
    ∀ w ∈ tokenize text,
      3 ≤ w.data.length ∧ ∀ c ∈ w.data, c.isAlpha = true ∧ c.isLower = true := by
  intro w hw
  unfold tokenize at hw
  obtain ⟨t, ht, hEq⟩ := List.mem_map.1 hw
  have := findTokensAux_wf (text.data.map Char.toLower) false [] (by simp)
    (by
      intro c hc halpha
      obtain ⟨d, _, hd⟩ := List.mem_map.1 hc
      subst hd
      exact char_toLower_lower d halpha)
    t ht
  subst hEq
  exact this

theorem bump_keys (w : String) :
    ∀ acc : List (String × Nat),
      (bump w acc).map Prod.fst =
        if w ∈ acc.map Prod.fst then acc.map Prod.fst
        else acc.map Prod.fst ++ [w] := by
  intro acc
  induction acc with
  | nil => simp [bump]
  | cons p r ih =>
    obtain ⟨x, n⟩ := p
    rw [bump]
    by_cases hx : x = w
    · subst hx
      simp
    · rw [if_neg hx]
      simp only [List.map_cons, ih]
      by_cases hmem : w ∈ r.map Prod.fst
      · rw [if_pos hmem, if_pos (by simp [hmem])]
      · rw [if_neg hmem, if_neg (by simp [hmem, Ne.symm hx])]
        simp

theorem bump_count (w : String) :
    ∀ (acc : List (String × Nat)) (f : String → Nat),
      (acc.map Prod.fst).Nodup →
      (∀ p ∈ acc, p.2 = f p.1) →
      (w ∉ acc.map Prod.fst → f w = 0) →
      ∀ p ∈ bump w acc, p.2 = if p.1 = w then f w + 1 else f p.1 := by
  intro acc
  induction acc with
  | nil =>
    intro f _ _ hfresh p hp
    simp only [bump, List.mem_singleton] at hp
    subst hp
    simp [hfresh (by simp)]
  | cons q r ih =>
    intro f hnd hval hfresh p hp
    obtain ⟨x, n⟩ := q
    rw [bump] at hp
    simp only [List.map_cons, List.nodup_cons] at hnd
    by_cases hx : x = w
    · subst hx
      rw [if_pos rfl] at hp
      rcases List.mem_cons.1 hp with hEq | hmem
      · subst hEq
        have : n = f x := hval (x, n) (List.mem_cons_self _ _)
        simp [this]
      · have hpr : p.2 = f p.1 := hval p (List.mem_cons_of_mem _ hmem)
        have hne : p.1 ≠ x := by
          intro hEq
          exact hnd.1 (hEq ▸ List.mem_map_of_mem Prod.fst hmem)
        rw [if_neg hne]
        exact hpr
    · rw [if_neg hx] at hp
      rcases List.mem_cons.1 hp with hEq | hmem
      · subst hEq
        rw [if_neg hx]
        exact hval (x, n) (List.mem_cons_self _ _)
      · refine ih f hnd.2 (fun q hq => hval q (List.mem_cons_of_mem _ hq)) ?_ p hmem
        intro hnotin
        apply hfresh
        intro hmem'
        rcases List.mem_cons.1 hmem' with hEq | hmem''
        · exact hx hEq.symm
        · exact hnotin hmem''

theorem buildFreq_inv :
    ∀ (ws : List String) (acc : List (String × Nat)) (done : List String),
      (acc.map Prod.fst).Nodup →
      (∀ p ∈ acc, p.2 = List.count p.1 done) →
      (∀ x ∈ done, x ∈ acc.map Prod.fst) →
      (∀ x ∈ acc.map Prod.fst, x ∈ done) →
      ((ws.foldl (fun a w => bump w a) acc).map Prod.fst).Nodup ∧
      (∀ p ∈ ws.foldl (fun a w => bump w a) acc,
        p.2 = List.count p.1 (done ++ ws)) ∧
      (∀ x ∈ done ++ ws, x ∈ (ws.foldl (fun a w => bump w a) acc).map Prod.fst) ∧
      (∀ x ∈ (ws.foldl (fun a w => bump w a) acc).map Prod.fst, x ∈ done ++ ws) := by
  intro ws
  induction ws with
  | nil =>
    intro acc done hnd hval hcompl hsub
    simp only [List.foldl_nil, List.append_nil]
    exact ⟨hnd, hval, hcompl, hsub⟩
  | cons w rest ih =>
    intro acc done hnd hval hcompl hsub
    have hkeys := bump_keys w acc
    have hnd' : ((bump w acc).map Prod.fst).Nodup := by
      rw [hkeys]
      by_cases hmem : w ∈ acc.map Prod.fst
      · rw [if_pos hmem]; exact hnd
      · rw [if_neg hmem, List.nodup_append]
        refine ⟨hnd, List.nodup_singleton w, ?_⟩
        intro x hx hx'
        simp only [List.mem_singleton] at hx'
        subst hx'
        exact hmem hx
    have hval' : ∀ p ∈ bump w acc, p.2 = List.count p.1 (done ++ [w]) := by
      have hb := bump_count w acc (fun a => List.count a done) hnd
        (fun p hp => hval p hp)
        (fun hnotin => by
          rw [List.count_eq_zero]
          intro hmem
          exact hnotin (hcompl _ hmem))
      intro p hp
      rw [hb p hp]
      by_cases hpw : p.1 = w
      · rw [if_pos hpw, hpw]
        simp [List.count_append]
      · rw [if_neg hpw]
        simp [List.count_append, List.count_singleton', hpw]
    have hcompl' : ∀ x ∈ done ++ [w], x ∈ (bump w acc).map Prod.fst := by
      intro x hx
      rw [hkeys]
      rcases List.mem_append.1 hx with hx | hx
      · have := hcompl x hx
        by_cases hmem : w ∈ acc.map Prod.fst
        · rwa [if_pos hmem]
        · rw [if_neg hmem]
          exact List.mem_append_left _ this
      · simp only [List.mem_singleton] at hx
        subst hx
        by_cases hmem : x ∈ acc.map Prod.fst
        · rwa [if_pos hmem]
        · rw [if_neg hmem]
          simp
    have hsub' : ∀ x ∈ (bump w acc).map Prod.fst, x ∈ done ++ [w] := by
      intro x hx
      rw [hkeys] at hx
      by_cases hmem : w ∈ acc.map Prod.fst
      · rw [if_pos hmem] at hx
        exact List.mem_append_left _ (hsub x hx)
      · rw [if_neg hmem] at hx
        rcases List.mem_append.1 hx with hx | hx
        · exact List.mem_append_left _ (hsub x hx)
        · exact List.mem_append_right _ hx
    have hmain := ih (bump w acc) (done ++ [w]) hnd' hval' hcompl' hsub'
    simpa [List.append_assoc] using hmain

theorem buildFreq_nodup (ws : List String) :
    ((buildFreq ws).map Prod.fst).Nodup :=
  (buildFreq_inv ws [] [] (by simp) (by simp) (by simp) (by simp)).1

theorem buildFreq_count (ws : List String) :
    ∀ p ∈ buildFreq ws, p.2 = List.count p.1 ws := by
  have h := (buildFreq_inv ws [] [] (by simp) (by simp) (by simp) (by simp)).2.1
  simp only [List.nil_append] at h
  exact h

theorem buildFreq_keys (ws : List String) :
    ∀ x, x ∈ (buildFreq ws).map Prod.fst ↔ x ∈ ws := by
  have h := buildFreq_inv ws [] [] (by simp) (by simp) (by simp) (by simp)
  intro x
  constructor
  · intro hx
    have := h.2.2.2 x hx
    simpa using this
  · intro hx
    exact h.2.2.1 x (by simpa using hx)

theorem insertDesc_perm (p : String × Nat) :
    ∀ l : List (String × Nat), (insertDesc p l).Perm (p :: l) := by
  intro l
  induction l with
  | nil => exact List.Perm.refl _
  | cons q qs ih =>
    rw [insertDesc]
    by_cases h : q.2 < p.2
    · rw [if_pos h]
    · rw [if_neg h]
      exact (ih.cons q).trans (List.Perm.swap p q qs)

theorem sortDesc_perm_aux :
    ∀ (l acc : List (String × Nat)),
      (l.foldl (fun a p => insertDesc p a) acc).Perm (acc ++ l) := by
  intro l
  induction l with
  | nil => intro acc; simp
  | cons p rest ih =>
    intro acc
    have h1 := ih (insertDesc p acc)
    have h2 : (insertDesc p acc ++ rest).Perm ((p :: acc) ++ rest) :=
      (insertDesc_perm p acc).append_right rest
    have h3 : ((p :: acc) ++ rest).Perm (acc ++ p :: rest) := by
      simpa using List.perm_middle.symm
    exact (h1.trans h2).trans h3

theorem sortDesc_perm (l : List (String × Nat)) : (sortDesc l).Perm l := by
  have := sortDesc_perm_aux l []
  simpa [sortDesc] using this

theorem insertDesc_sorted (p : String × Nat) :
    ∀ l : List (String × Nat),
      List.Sorted (fun a b : String × Nat => b.2 ≤ a.2) l →
      List.Sorted (fun a b : String × Nat => b.2 ≤ a.2) (insertDesc p l) := by
  intro l
  induction l with
  | nil => intro _; simp [insertDesc]
  | cons q qs ih =>
    intro hs
    rw [List.sorted_cons] at hs
    rw [insertDesc]
    by_cases h : q.2 < p.2
    · rw [if_pos h, List.sorted_cons]
      refine ⟨?_, List.sorted_cons.2 hs⟩
      intro b hb
      rcases List.mem_cons.1 hb with hEq | hmem
      · subst hEq; omega
      · have := hs.1 b hmem
        omega
    · rw [if_neg h, List.sorted_cons]
      refine ⟨?_, ih hs.2⟩
      intro b hb
      have hb' : b ∈ p :: qs := (insertDesc_perm p qs).mem_iff.1 hb
      rcases List.mem_cons.1 hb' with hEq | hmem
      · subst hEq; omega
      · exact hs.1 b hmem

theorem sortDesc_sorted_aux :
    ∀ (l acc : List (String × Nat)),
      List.Sorted (fun a b : String × Nat => b.2 ≤ a.2) acc →
      List.Sorted (fun a b : String × Nat => b.2 ≤ a.2)
        (l.foldl (fun a p => insertDesc p a) acc) := by
  intro l
  induction l with
  | nil => intro acc h; exact h
  | cons p rest ih =>
    intro acc h
    exact ih (insertDesc p acc) (insertDesc_sorted p acc h)

theorem sortDesc_sorted (l : List (String × Nat)) :
    List.Sorted (fun a b : String × Nat => b.2 ≤ a.2) (sortDesc l) :=
  sortDesc_sorted_aux l [] (by simp)

/-- C2 (amended): `extract_keywords` is a bag-of-words frequency count over
the fixed stopword list: it tokenizes the lowercased text into alphabetic
words of length at least 3 that are bounded by regex word boundaries (so a
letter run adjacent to a digit or underscore is NOT a token — this boundary
condition is the amendment versus the claimed plain "alphabetic words of
length ≥ 3"), discards the stopwords, counts occurrences, and returns
distinct words ordered by descending count, truncated to `max_keywords`
entries. -/
theorem extract_keywords_spec (text : String) (k : Nat) :
    (extract_keywords text k).length ≤ k ∧
    (extract_keywords text k).Nodup ∧
    (∀ w ∈ extract_keywords text k,
      w ∈ tokenize text ∧ stopwords.contains w = false ∧
      3 ≤ w.data.length ∧ ∀ c ∈ w.data, c.isAlpha = true ∧ c.isLower = true) ∧
    (∀ (i j : Nat) (a b : String), i < j →
      (extract_keywords text k)[i]? = some a →
      (extract_keywords text k)[j]? = some b →
      List.count b (filteredWords text) ≤ List.count a (filteredWords text)) ∧
    ((buildFreq (filteredWords text)).length ≤ k →
      ∀ w ∈ filteredWords text, w ∈ extract_keywords text k) := by
  have hperm := sortDesc_perm (buildFreq (filteredWords text))
  have hsorted := sortDesc_sorted (buildFreq (filteredWords text))
  refine ⟨?_, ?_, ?_, ?_, ?_⟩
  · simp only [extract_keywords, List.length_map, List.length_take]
    omega
  · have hnd : ((sortDesc (buildFreq (filteredWords text))).map Prod.fst).Nodup := by
      rw [(hperm.map Prod.fst).nodup_iff]
      exact buildFreq_nodup _
    rw [extract_keywords, List.map_take]
    exact hnd.sublist (List.take_sublist k _)
  · intro w hw
    rw [extract_keywords] at hw
    obtain ⟨p, hp, hpw⟩ := List.mem_map.1 hw
    have hpmem : p ∈ buildFreq (filteredWords text) :=
      hperm.mem_iff.1 (List.mem_of_mem_take hp)
    have hkey : w ∈ filteredWords text := by
      rw [← buildFreq_keys (filteredWords text) w]
      exact hpw ▸ List.mem_map_of_mem Prod.fst hpmem
    rw [filteredWords, List.mem_filter] at hkey
    obtain ⟨htok, hstop⟩ := hkey
    have hwf := tokenize_wf text w htok
    exact ⟨htok, by simpa using hstop, hwf.1, hwf.2⟩
  · intro i j a b hij ha hb
    rw [extract_keywords] at ha hb
    rw [List.getElem?_map] at ha hb
    cases hpa : (List.take k (sortDesc (buildFreq (filteredWords text))))[i]? with
    | none => rw [hpa] at ha; simp at ha
    | some pa =>
      rw [hpa] at ha
      cases hpb : (List.take k (sortDesc (buildFreq (filteredWords text))))[j]? with
      | none => rw [hpb] at hb; simp at hb
      | some pb =>
        rw [hpb] at hb
        simp only [Option.map_some'] at ha hb
        injection ha with ha
        injection hb with hb
        have hj : j < k := by
          have := (List.getElem?_eq_some.1 hpb).1
          simp only [List.length_take] at this
          omega
        rw [List.getElem?_take_of_lt (by omega : i < k)] at hpa
        rw [List.getElem?_take_of_lt hj] at hpb
        obtain ⟨hilt, hieq⟩ := List.getElem?_eq_some.1 hpa
        obtain ⟨hjlt, hjeq⟩ := List.getElem?_eq_some.1 hpb
        have hrel := List.pairwise_iff_getElem.1 hsorted i j hilt hjlt hij
        rw [hieq, hjeq] at hrel
        have hca : pa.2 = List.count pa.1 (filteredWords text) :=
          buildFreq_count _ pa (hperm.mem_iff.1 (hieq ▸ List.getElem_mem hilt))
        have hcb : pb.2 = List.count pb.1 (filteredWords text) :=
          buildFreq_count _ pb (hperm.mem_iff.1 (hjeq ▸ List.getElem_mem hjlt))
        rw [← ha, ← hb, ← hca, ← hcb]
        exact hrel
  · intro hlen w hw
    rw [extract_keywords]
    have hlen' : (sortDesc (buildFreq (filteredWords text))).length ≤ k := by
      rw [hperm.length_eq]
      exact hlen
    rw [List.take_of_length_le hlen']
    have : w ∈ (buildFreq (filteredWords text)).map Prod.fst :=
      (buildFreq_keys (filteredWords text) w).2 hw
    obtain ⟨p, hp, hpw⟩ := List.mem_map.1 this
    exact hpw ▸ List.mem_map_of_mem Prod.fst (hperm.mem_iff.2 hp)

/-- Tokenizer following the claim's own words ("lowercase alphabetic words
of length at least 3"): the maximal alphabetic runs of the lowercased text
that have length at least 3, with no word-boundary restriction.  This is
the spec-side definition used only to exhibit its divergence from the
regex `\b[a-zA-Z]{3,}\b` that the code actually uses. -/
def specAlphaRunsAux (acc : List Char) : List Char → List (List Char)
  | [] => if 3 ≤ acc.length then [acc.reverse] else []
  | c :: cs =>
    if c.isAlpha then specAlphaRunsAux (c :: acc) cs
    else (if 3 ≤ acc.length then [acc.reverse] else []) ++ specAlphaRunsAux [] cs

/-- The claim's reading of the tokenizer, as a function of the text. -/
def specAlphaRuns (text : String) : List String :=
  (specAlphaRunsAux [] (text.data.map Char.toLower)).map fun l => ⟨l⟩

/-- The keyword pipeline with the claim's tokenizer substituted for the
code's regex tokenizer (stopword filter, counting and ordering are
unchanged). -/
def spec_extract_keywords (text : String) (k : Nat) : List String :=
  ((sortDesc (buildFreq
    ((specAlphaRuns text).filter fun w => !(stopwords.contains w)))).take k).map
    Prod.fst

/-- C2 (counterexample): on the text "fox1" the word "fox" is a lowercase
alphabetic word of length 3 and not a stopword, so the claimed
tokenization yields the keyword list ["fox"]; but the regex
`\b[a-zA-Z]{3,}\b` rejects a letter run adjacent to a digit, so
`extract_keywords` returns `[]`.  The claim's description of the
tokenization is therefore false. -/
theorem extract_keywords_counterexample :
    extract_keywords "fox1" 5 = [] ∧
    spec_extract_keywords "fox1" 5 = ["fox"] ∧
    extract_keywords "fox1" 5 ≠ spec_extract_keywords "fox1" 5 := by decide

/-- C2 (witness): the amended keyword specification instantiated on the
concrete text "wolf wolf owl". -/
theorem extract_keywords_spec_witness :
    (extract_keywords "wolf wolf owl" 5).length ≤ 5 ∧
    (extract_keywords "wolf wolf owl" 5).Nodup ∧
    ("wolf" ∈ extract_keywords "wolf wolf owl" 5 ∧
      "wolf" ∈ tokenize "wolf wolf owl" ∧
      stopwords.contains "wolf" = false ∧ 3 ≤ "wolf".data.length) ∧
    ((0 : Nat) < 1 ∧
      (extract_keywords "wolf wolf owl" 5)[(0 : Nat)]? = some "wolf" ∧
      (extract_keywords "wolf wolf owl" 5)[(1 : Nat)]? = some "owl" ∧
      List.count "owl" (filteredWords "wolf wolf owl") ≤
        List.count "wolf" (filteredWords "wolf wolf owl")) ∧
    ((buildFreq (filteredWords "wolf wolf owl")).length ≤ 5 ∧
      "owl" ∈ extract_keywords "wolf wolf owl" 5) := by
  have h := extract_keywords_spec "wolf wolf owl" 5
  refine ⟨h.1, h.2.1, ⟨by decide, ?_⟩, ⟨by decide, by decide, by decide, ?_⟩,
    by decide, ?_⟩
  · have hw := h.2.2.1 "wolf" (by decide)
    exact ⟨hw.1, hw.2.1, hw.2.2.1⟩
  · exact h.2.2.2.1 0 1 "wolf" "owl" (by decide) (by decide) (by decide)
  · exact h.2.2.2.2 (by decide) "owl" (by decide)

/-! ## Live context script (live_context_box.py)

A transcript segment is a JSON dict in which `start`, `end`, `speaker`,
`text` may each be absent (`seg.get(...)`).  The source field `end` is a
reserved word in Lean and is called `stop` here; the JSON key it stands for
is still "end".  `LiveEnv` records the responses of the external services:
`embedResp t = none` means the OpenAI embeddings call for text `t` fails
with an HTTP error status (so `response.raise_for_status()` raises),
`rpc e = (status, rows)` is the Supabase `match_doc_chunks` RPC response
for query embedding `e`, and `tableStatus`/`tableRows` describe the
response of the direct `document_chunks` REST query used by
`fallback_search`. -/

structure Segment where
  start : Option ℚ
  stop : Option ℚ
  speaker : Option String
  text : Option String
deriving DecidableEq

structure LiveEnv (α : Type) where
  hasKey : Bool
  hasSupabase : Bool
  embedResp : String → Option (List ℚ)
  rpc : List ℚ → Nat × List α
  tableStatus : Nat
  tableRows : List α

/-- The transcript JSON file content: the "segments" key may be absent. -/
structure TranscriptData where
  segments : Option (List Segment)
deriving DecidableEq

/-- Model of `load_transcript` (`data.get("segments", [])`), identical in
live_context_box.py (lines 20-24) and adversarial_analysis.py
(lines 20-24). -/
def load_transcript (d : TranscriptData) : List Segment :=
  d.segments.getD []

/-- Model of `get_embedding` (live_context_box.py lines 62-82): without an
API key it prints and returns `[]`; otherwise it posts to the embeddings
endpoint and `raise_for_status()` raises on an HTTP error. -/
def get_embedding (env : LiveEnv α) (text : String) : Except String (List ℚ) :=
  if env.hasKey = false then Except.ok []
  else
    match env.embedResp text with
    | none => Except.error "HTTPError"
    | some v => Except.ok v

set_option linter.unusedVariables false in
/-- Model of `fallback_search` (lines 117-136): a direct `document_chunks`
REST query limited to `top_n` rows; on a non-200 status it returns `[]`.
`doc_id` and `top_n` only shape the HTTP request. -/
def fallback_search (env : LiveEnv α) (doc_id : String) (top_n : Nat) : List α :=
  if env.tableStatus = 200 then env.tableRows else []

set_option linter.unusedVariables false in
/-- Model of `semantic_search` (lines 85-114): without Supabase credentials
it returns `[]`; on a 200 RPC response it returns the RPC rows; on any
other status it falls back to `fallback_search`. -/
def semantic_search (env : LiveEnv α) (query_embedding : List ℚ)
    (doc_id : String) (top_n : Nat) : List α :=
  if env.hasSupabase = false then []
  else if (env.rpc query_embedding).1 = 200 then (env.rpc query_embedding).2
  else fallback_search env doc_id top_n

/-- The text of a segment: `seg.get("text", "")`. -/
def segText (seg : Segment) : String := seg.text.getD ""

/-- Whether a segment survives the `if not text.strip(): continue` guard. -/
def segNonblank (seg : Segment) : Bool := pyStrip (segText seg).data ≠ []

/-- The `context_matches` value computed for one segment (lines 151-157):
`get_embedding` inside `try`, the `except` branch and the
`if embedding else []` guard both give `[]`. -/
def liveMatches (env : LiveEnv α) (text : String) (doc_id : String)
    (top_n : Nat) : List α :=
  match get_embedding env text with
  | Except.error _ => []
  | Except.ok [] => []
  | Except.ok emb => semantic_search env emb doc_id top_n

/-- One output line of the live context script (lines 159-171): the
segment's `start`, `end`, `speaker` and `text` fields, the locally
extracted keywords, and the context matches. -/
structure ContextEntry (α : Type) where
  seg_start : Option ℚ
  seg_end : Option ℚ
  seg_speaker : Option String
  seg_text : String
  keywords : List String
  context_matches : List α
deriving DecidableEq

/-- The JSON object printed for one segment. -/
def contextEntry (env : LiveEnv α) (doc_id : String) (top_n : Nat)
    (seg : Segment) : ContextEntry α :=
  { seg_start := seg.start
    seg_end := seg.stop
    seg_speaker := seg.speaker
    seg_text := segText seg
    keywords := extract_keywords (segText seg) 5
    context_matches := liveMatches env (segText seg) doc_id top_n }

/-- Model of `process_live_context` (lines 139-171): iterate over the
segments, skip those whose text is empty after stripping, and print one
JSON object for each remaining segment. -/
def process_live_context (env : LiveEnv α) (segments : List Segment)
    (doc_id : String) (top_n : Nat) : List (ContextEntry α) :=
  match segments with
  | [] => []
  | seg :: rest =>
    if pyStrip (segText seg).data = [] then
      process_live_context env rest doc_id top_n
    else
      contextEntry env doc_id top_n seg ::
        process_live_context env rest doc_id top_n

theorem process_live_context_eq_filter_map (env : LiveEnv α)
    (doc_id : String) (top_n : Nat) :
    ∀ segments : List Segment,
      process_live_context env segments doc_id top_n =
        (segments.filter segNonblank).map (contextEntry env doc_id top_n) := by
  intro segments
  induction segments with
  | nil => rfl
  | cons seg rest ih =>
    rw [process_live_context, List.filter_cons]
    by_cases hb : pyStrip (segText seg).data = []
    · rw [if_pos hb]
      have : segNonblank seg = false := by
        simp [segNonblank, hb]
      rw [this]
      simpa using ih
    · rw [if_neg hb]
      have : segNonblank seg = true := by
        simp [segNonblank, hb]
      rw [this]
      simp [ih]

/-- C3 (amended): failures of external calls are print-and-exit or
print-and-continue-with-an-empty-result throughout the scripts, with one
exception that refutes the original claim: when Supabase credentials are
present and the `match_doc_chunks` RPC returns a non-200 status,
`semantic_search` switches to the alternative query path
`fallback_search` (a direct table query returning the first `top_n`
chunks), and returns `[]` only when that fallback also gets a non-200
response. -/
theorem semantic_search_spec (env : LiveEnv α) (q : List ℚ) (doc_id : String)
    (top_n : Nat) (hcred : env.hasSupabase = true) :
    ((env.rpc q).1 = 200 →
      semantic_search env q doc_id top_n = (env.rpc q).2) ∧
    ((env.rpc q).1 ≠ 200 →
      semantic_search env q doc_id top_n = fallback_search env doc_id top_n) ∧
    ((env.rpc q).1 ≠ 200 → env.tableStatus = 200 →
      semantic_search env q doc_id top_n = env.tableRows) ∧
    ((env.rpc q).1 ≠ 200 → env.tableStatus ≠ 200 →
      semantic_search env q doc_id top_n = []) := by
  unfold semantic_search fallback_search
  rw [hcred]
  refine ⟨?_, ?_, ?_, ?_⟩
  · intro h200
    simp [h200]
  · intro hfail
    simp [hfail]
  · intro hfail h200
    simp [hfail, h200]
  · intro hfail htfail
    simp [hfail, htfail]

/-- Environment for the C3 counterexample: the RPC answers 500, the direct
table query answers 200 with one row. -/
def envRpcDown : LiveEnv String :=
  { hasKey := true
    hasSupabase := true
    embedResp := fun _ => some [1]
    rpc := fun _ => (500, [])
    tableStatus := 200
    tableRows := ["chunk"] }

/-- C3 (counterexample): on a non-200 RPC response `semantic_search` does
not continue with an empty/unchanged result: it issues the substitute
direct-table query and returns its row, refuting the original claim. -/
theorem semantic_search_counterexample :
    (envRpcDown.rpc [1]).1 ≠ 200 ∧
    semantic_search envRpcDown [1] "doc" 3 = ["chunk"] ∧
    semantic_search envRpcDown [1] "doc" 3 ≠ [] ∧
    semantic_search envRpcDown [1] "doc" 3 = fallback_search envRpcDown "doc" 3 := by
  refine ⟨by decide, rfl, by decide, rfl⟩

/-- Environment for the C3 witness: both the RPC and the fallback table
query fail. -/
def envAllDown : LiveEnv String :=
  { hasKey := true
    hasSupabase := true
    embedResp := fun _ => some [1]
    rpc := fun _ => (500, [])
    tableStatus := 503
    tableRows := ["chunk"] }

/-- C3 (witness): the amended search dispatch instantiated on concrete
environments. -/
theorem semantic_search_spec_witness :
    (envRpcDown.hasSupabase = true ∧ (envRpcDown.rpc [1]).1 ≠ 200 ∧
      envRpcDown.tableStatus = 200 ∧
      semantic_search envRpcDown [1] "d" 1 = envRpcDown.tableRows) ∧
    (envAllDown.hasSupabase = true ∧ (envAllDown.rpc [1]).1 ≠ 200 ∧
      envAllDown.tableStatus ≠ 200 ∧
      semantic_search envAllDown [1] "d" 1 = []) :=
  ⟨⟨rfl, by decide, rfl,
    (semantic_search_spec envRpcDown [1] "d" 1 rfl).2.2.1 (by decide) rfl⟩,
   ⟨rfl, by decide, by decide,
    (semantic_search_spec envAllDown [1] "d" 1 rfl).2.2.2 (by decide) (by decide)⟩⟩

/-- C4 (amended): the live context script emits one JSON object per segment
WHOSE TEXT IS NON-BLANK (segments whose `text` is absent, empty, or only
whitespace are skipped by `if not text.strip(): continue` — this guard is
the amendment); the i-th emitted object carries the i-th non-blank
segment's `start`, `end`, `speaker` and `text`, the locally extracted
keywords for that text, and the context matches returned by the external
search for that text. -/
theorem process_live_context_spec (env : LiveEnv α) (segments : List Segment)
    (doc_id : String) (top_n : Nat) :
    (process_live_context env segments doc_id top_n).length =
      (segments.filter segNonblank).length ∧
    (∀ (i : Nat) (e : ContextEntry α),
      (process_live_context env segments doc_id top_n)[i]? = some e →
      ∃ seg, (segments.filter segNonblank)[i]? = some seg ∧
        e.seg_start = seg.start ∧ e.seg_end = seg.stop ∧
        e.seg_speaker = seg.speaker ∧ e.seg_text = segText seg ∧
        e.keywords = extract_keywords (segText seg) 5 ∧
        e.context_matches = liveMatches env (segText seg) doc_id top_n) := by
  rw [process_live_context_eq_filter_map]
  constructor
  · simp
  · intro i e he
    rw [List.getElem?_map] at he
    cases hseg : (segments.filter segNonblank)[i]? with
    | none => rw [hseg] at he; simp at he
    | some seg =>
      rw [hseg] at he
      simp only [Option.map_some'] at he
      injection he with he
      exact ⟨seg, rfl, by rw [← he]; exact rfl, by rw [← he]; exact rfl,
        by rw [← he]; exact rfl, by rw [← he]; exact rfl,
        by rw [← he]; exact rfl, by rw [← he]; exact rfl⟩

/-- A transcript consisting of one whitespace-only segment, for the C4
counterexample. -/
def blankSeg : Segment :=
  { start := some 0, stop := some 1, speaker := some "A", text := some "   " }

/-- Environment used by the C4/C10 concrete instances. -/
def envLive : LiveEnv String :=
  { hasKey := true
    hasSupabase := true
    embedResp := fun _ => some [1]
    rpc := fun _ => (200, ["m"])
    tableStatus := 200
    tableRows := ["m"] }

/-- C4 (counterexample): a transcript with one whitespace-only segment
produces no output object at all, refuting "one JSON object per segment of
the transcript". -/
theorem process_live_context_counterexample :
    ([blankSeg] : List Segment).length = 1 ∧
    process_live_context envLive [blankSeg] "doc" 3 = [] ∧
    (process_live_context envLive [blankSeg] "doc" 3).length ≠ 1 := by
  refine ⟨rfl, rfl, by decide⟩

/-- A non-blank segment for the C4/C10 witnesses. -/
def catSeg : Segment :=
  { start := some 0, stop := some 2, speaker := some "B", text := some "hi cat" }

/-- C4 (witness): the amended per-segment output specification
instantiated on a concrete one-segment transcript. -/
theorem process_live_context_spec_witness :
    (process_live_context envLive [catSeg] "doc" 3).length =
      (([catSeg] : List Segment).filter segNonblank).length ∧
    (∃ seg, (([catSeg] : List Segment).filter segNonblank)[(0 : Nat)]? = some seg ∧
      (contextEntry envLive "doc" 3 catSeg).seg_start = seg.start ∧
      (contextEntry envLive "doc" 3 catSeg).seg_end = seg.stop ∧
      (contextEntry envLive "doc" 3 catSeg).seg_speaker = seg.speaker ∧
      (contextEntry envLive "doc" 3 catSeg).seg_text = segText seg ∧
      (contextEntry envLive "doc" 3 catSeg).keywords =
        extract_keywords (segText seg) 5 ∧
      (contextEntry envLive "doc" 3 catSeg).context_matches =
        liveMatches envLive (segText seg) "doc" 3) :=
  ⟨(process_live_context_spec envLive [catSeg] "doc" 3).1,
   (process_live_context_spec envLive [catSeg] "doc" 3).2 0
     (contextEntry envLive "doc" 3 catSeg) (by rfl)⟩

/-- C10: a failure of the external embedding/search step for one segment is
contained to that segment: if `get_embedding` raises (HTTP error) or
returns the empty list, the segment's JSON line is still emitted, with its
locally extracted keywords and an empty `context_matches` list, and the
output as a whole still has one entry per non-blank segment, each computed
from its own segment only. -/
theorem segment_failure_containment_spec (env : LiveEnv α)
    (segments : List Segment) (doc_id : String) (top_n : Nat) (i : Nat)
    (seg : Segment) (hseg : (segments.filter segNonblank)[i]? = some seg)
    (hfail : get_embedding env (segText seg) = Except.error "HTTPError" ∨
      get_embedding env (segText seg) = Except.ok []) :
    (process_live_context env segments doc_id top_n)[i]? =
      some (contextEntry env doc_id top_n seg) ∧
    (contextEntry env doc_id top_n seg).seg_text = segText seg ∧
    (contextEntry env doc_id top_n seg).keywords =
      extract_keywords (segText seg) 5 ∧
    (contextEntry env doc_id top_n seg).context_matches = [] ∧
    (process_live_context env segments doc_id top_n).length =
      (segments.filter segNonblank).length := by
  rw [process_live_context_eq_filter_map]
  refine ⟨?_, rfl, rfl, ?_, by simp⟩
  · rw [List.getElem?_map, hseg]
    rfl
  · show liveMatches env (segText seg) doc_id top_n = []
    unfold liveMatches
    rcases hfail with hf | hf
    · rw [hf]
    · rw [hf]

/-- Environment for the C10 witness: every embeddings call fails with an
HTTP error. -/
def envEmbedDown : LiveEnv String :=
  { hasKey := true
    hasSupabase := true
    embedResp := fun _ => none
    rpc := fun _ => (200, ["m"])
    tableStatus := 200
    tableRows := ["m"] }

/-- C10 (witness): failure containment instantiated on a concrete
transcript of two non-blank segments with a failing embeddings service:
the first segment's entry is still emitted with its keywords and no
matches, and the second segment is still processed. -/
theorem segment_failure_containment_spec_witness :
    (([catSeg, catSeg] : List Segment).filter segNonblank)[(0 : Nat)]? =
      some catSeg ∧
    get_embedding envEmbedDown (segText catSeg) = Except.error "HTTPError" ∧
    (process_live_context envEmbedDown [catSeg, catSeg] "doc" 3)[(0 : Nat)]? =
      some (contextEntry envEmbedDown "doc" 3 catSeg) ∧
    (contextEntry envEmbedDown "doc" 3 catSeg).keywords =
      extract_keywords (segText catSeg) 5 ∧
    (contextEntry envEmbedDown "doc" 3 catSeg).context_matches = [] ∧
    (process_live_context envEmbedDown [catSeg, catSeg] "doc" 3).length =
      (([catSeg, catSeg] : List Segment).filter segNonblank).length := by
  have h := segment_failure_containment_spec envEmbedDown [catSeg, catSeg]
    "doc" 3 0 catSeg (by rfl) (Or.inl rfl)
  exact ⟨by rfl, rfl, h.1, h.2.2.1, h.2.2.2.1, h.2.2.2.2⟩

/-! ## Decimal rounding

`round(x, 2)` and the `:.1f` format of Python round half-to-even.  The
binary floating point representation is abstracted to exact rationals;
the half-even tie rule on the exact value is the model of Python's
behaviour. -/

/-- Round a rational to the nearest integer, ties to even. -/
def roundHalfEven (x : ℚ) : Int :=
  let f : Int := Int.floor x
  let r : ℚ := x - f
  if r < 1 / 2 then f
  else if 1 / 2 < r then f + 1
  else if f % 2 = 0 then f else f + 1

/-- Model of Python `round(x, 2)`. -/
def round2 (x : ℚ) : ℚ := (roundHalfEven (x * 100) : ℚ) / 100

theorem roundHalfEven_close (x : ℚ) :
    |((roundHalfEven x : Int) : ℚ) - x| ≤ 1 / 2 := by
  unfold roundHalfEven
  have h0 : (0 : ℚ) ≤ x - Int.floor x := by
    have := Int.floor_le x
    linarith
  have h1 : x - Int.floor x < 1 := by
    have := Int.lt_floor_add_one x
    linarith
  by_cases hc1 : x - (Int.floor x : ℚ) < 1 / 2
  · rw [if_pos hc1]
    rw [abs_le]
    constructor <;> linarith
  · rw [if_neg hc1]
    by_cases hc2 : (1 : ℚ) / 2 < x - (Int.floor x : ℚ)
    · rw [if_pos hc2]
      rw [abs_le]
      push_cast
      constructor <;> linarith
    · rw [if_neg hc2]
      have heq : x - (Int.floor x : ℚ) = 1 / 2 := by linarith
      by_cases hpar : Int.floor x % 2 = 0
      · rw [if_pos hpar, abs_le]
        constructor <;> linarith
      · rw [if_neg hpar, abs_le]
        push_cast
        constructor <;> linarith

theorem round2_close (x : ℚ) : |round2 x - x| ≤ 1 / 200 := by
  unfold round2
  have h := roundHalfEven_close (x * 100)
  have hrw : ((roundHalfEven (x * 100) : Int) : ℚ) / 100 - x =
      (((roundHalfEven (x * 100) : Int) : ℚ) - x * 100) / 100 := by
    field_simp
    ring
  rw [hrw, abs_div]
  rw [abs_of_pos (by norm_num : (0 : ℚ) < 100)]
  linarith

theorem round2_two_decimals (x : ℚ) :
    ∃ n : Int, round2 x = (n : ℚ) / 100 :=
  ⟨roundHalfEven (x * 100), rfl⟩

/-- Decimal rendering of a rational at one decimal place, modelling
Python's `f"{x:.1f}"`. -/
def fmtTenths (q : ℚ) : String :=
  let n : Int := roundHalfEven (q * 10)
  if n < 0 then
    "-" ++ toString ((-n) / 10) ++ "." ++ toString ((-n) % 10)
  else
    toString (n / 10) ++ "." ++ toString (n % 10)

/-! ## Adversarial analysis script (adversarial_analysis.py)

`AnalysisEnv` records the external responses: `chat sys usr = none` means
the chat-completions call fails with an HTTP error (so
`raise_for_status()` raises), otherwise `some content` is the returned
message content; `docStatus`/`docRows` describe the `document_chunks`
REST response used by `get_document_chunks`. -/

structure AnalysisEnv where
  hasKey : Bool
  hasSupabase : Bool
  chat : String → String → Option String
  docStatus : Nat
  docRows : List String

/-- System prompt of `coherence_analysis` (lines 202-208). -/
def coherenceSystemPrompt : String :=
  "You are an expert analyst checking for coherence and consistency.\n    Compare the transcript against the reference documents and identify:\n    1. Claims that are SUPPORTED by the documents\n    2. Claims that CONTRADICT the documents\n    3. Claims that are UNSUPPORTED (neither confirmed nor denied)\n    \n    Be specific and cite examples."

/-- System prompt of `tone_deception_analysis` (lines 224-231). -/
def toneSystemPrompt : String :=
  "You are an expert in communication analysis and behavioral psychology.\n    Analyze the transcript for:\n    1. Overall tone (confident, evasive, aggressive, defensive, etc.)\n    2. Potential deception indicators (hedging language, inconsistencies, deflection)\n    3. Emotional shifts throughout the conversation\n    4. Power dynamics between speakers\n    \n    Note: This is analytical, not accusatory. Flag patterns, not conclusions."

/-- System prompt of `adversarial_summary` (lines 244-252). -/
def adversarialSystemPrompt : String :=
  "You are a critical analyst preparing a devil\x27s advocate summary.\n    Your job is to:\n    1. Summarize the key points of the conversation\n    2. Highlight potential weaknesses in arguments made\n    3. Identify missing information or gaps\n    4. List follow-up questions that should be asked\n    5. Note any red flags or areas requiring verification\n    \n    Be thorough but fair. The goal is due diligence, not character assassination."

/-- User prompt template of `coherence_analysis` (lines 210-216). -/
def coherenceUserPrompt (transcript_text doc_text : String) : String :=
  "TRANSCRIPT:\n" ++ transcript_text ++ "\n\nREFERENCE DOCUMENTS:\n" ++
    doc_text ++ "\n\nAnalyze the coherence between the transcript and documents."

/-- User prompt template of `tone_deception_analysis` (lines 233-236). -/
def toneUserPrompt (transcript_text : String) : String :=
  "TRANSCRIPT:\n" ++ transcript_text ++
    "\n\nProvide a detailed tone and behavioral analysis."

/-- User prompt template of `adversarial_summary` (lines 254-260). -/
def adversarialUserPrompt (transcript_text doc_text : String) : String :=
  "TRANSCRIPT:\n" ++ transcript_text ++ "\n\nREFERENCE DOCUMENTS:\n" ++
    doc_text ++ "\n\nGenerate an adversarial analysis summary."

/-- Model of `call_openai` (lines 172-197): without an API key it returns
an error STRING (no exception); otherwise `raise_for_status()` raises on
an HTTP error, else the message content is returned. -/
def call_openai (env : AnalysisEnv) (system_prompt user_prompt : String) :
    Except String String :=
  if env.hasKey = false then Except.ok "❌ OPENAI_API_KEY not set"
  else
    match env.chat system_prompt user_prompt with
    | none => Except.error "HTTPError"
    | some content => Except.ok content

set_option linter.unusedVariables false in
/-- Model of `get_document_chunks` (lines 136-158): without Supabase
credentials, or on a non-200 response, it returns `[]`. -/
def get_document_chunks (env : AnalysisEnv) (doc_id : String) : List String :=
  if env.hasSupabase = false then []
  else if env.docStatus = 200 then env.docRows else []

/-- Model of `format_transcript` (lines 161-169). -/
def format_transcript (segments : List Segment) : String :=
  String.intercalate "\n" (segments.map fun seg =>
    "[" ++ fmtTenths (seg.start.getD 0) ++ "s] " ++
      seg.speaker.getD "UNKNOWN" ++ ": " ++ seg.text.getD "")

structure AnalysisResult where
  type : String
  analysis : String
deriving DecidableEq

/-- Model of `coherence_analysis` (lines 200-219). -/
def coherence_analysis (env : AnalysisEnv) (transcript_text doc_text : String) :
    Except String AnalysisResult :=
  match call_openai env coherenceSystemPrompt
      (coherenceUserPrompt transcript_text doc_text) with
  | Except.error e => Except.error e
  | Except.ok result => Except.ok { type := "coherence", analysis := result }

/-- Model of `tone_deception_analysis` (lines 222-239). -/
def tone_deception_analysis (env : AnalysisEnv) (transcript_text : String) :
    Except String AnalysisResult :=
  match call_openai env toneSystemPrompt (toneUserPrompt transcript_text) with
  | Except.error e => Except.error e
  | Except.ok result => Except.ok { type := "tone_deception", analysis := result }

/-- Model of `adversarial_summary` (lines 242-263). -/
def adversarial_summary (env : AnalysisEnv) (transcript_text doc_text : String) :
    Except String AnalysisResult :=
  match call_openai env adversarialSystemPrompt
      (adversarialUserPrompt transcript_text doc_text) with
  | Except.error e => Except.error e
  | Except.ok result =>
    Except.ok { type := "adversarial_summary", analysis := result }

/-- Python truthiness of the optional `--doc_id` argument (`if doc_id:`):
`None` and the empty string are falsy. -/
def truthyDocId : Option String → Bool
  | none => false
  | some s => s != ""

/-- The document text assembled when a truthy `doc_id` is given
(lines 276-280): the fetched chunks joined by blank lines, else `""`. -/
def docTextOf (env : AnalysisEnv) (doc_id : Option String) : String :=
  if truthyDocId doc_id then
    String.intercalate "\n\n" (get_document_chunks env (doc_id.getD ""))
  else ""

/-- The final JSON report of `run_full_analysis` (lines 282-299). -/
structure Report where
  transcript_segments : Nat
  doc_chunks : Nat
  analyses : List AnalysisResult
deriving DecidableEq

/-- Model of `run_full_analysis` (lines 266-301): load the transcript,
optionally fetch document chunks, run the three analyses in order and
print the JSON report; an uncaught exception from any chat call aborts
the run. -/
def run_full_analysis (env : AnalysisEnv) (d : TranscriptData)
    (doc_id : Option String) : Except String Report :=
  match coherence_analysis env (format_transcript (load_transcript d))
      (docTextOf env doc_id) with
  | Except.error e => Except.error e
  | Except.ok a1 =>
    match tone_deception_analysis env
        (format_transcript (load_transcript d)) with
    | Except.error e => Except.error e
    | Except.ok a2 =>
      match adversarial_summary env (format_transcript (load_transcript d))
          (docTextOf env doc_id) with
      | Except.error e => Except.error e
      | Except.ok a3 =>
        Except.ok
          { transcript_segments := (load_transcript d).length
            doc_chunks := if truthyDocId doc_id then
              (get_document_chunks env (doc_id.getD "")).length else 0
            analyses := [a1, a2, a3] }

theorem call_openai_ok (env : AnalysisEnv) (s u : String)
    (hchat : env.hasKey = true → (env.chat s u).isSome) :
    ∃ c, call_openai env s u = Except.ok c := by
  unfold call_openai
  by_cases hk : env.hasKey = false
  · rw [if_pos hk]
    exact ⟨_, rfl⟩
  · rw [if_neg hk]
    have := hchat (by revert hk; cases env.hasKey <;> simp)
    cases hc : env.chat s u with
    | none => rw [hc] at this; simp at this
    | some c => exact ⟨c, rfl⟩

/-- C5: for every transcript and optional document reference,
`run_full_analysis` (when it completes) reports exactly three analyses
whose `type` fields are, in order, "coherence", "tone_deception" and
"adversarial_summary" — each produced by the corresponding fixed prompt
template applied to the formatted transcript and document text — together
with the transcript segment count and document chunk count. -/
theorem run_full_analysis_spec (env : AnalysisEnv) (d : TranscriptData)
    (doc_id : Option String) (r : Report)
    (hok : run_full_analysis env d doc_id = Except.ok r) :
    r.analyses.length = 3 ∧
    r.analyses.map AnalysisResult.type =
      ["coherence", "tone_deception", "adversarial_summary"] ∧
    r.transcript_segments = (load_transcript d).length ∧
    r.doc_chunks = (if truthyDocId doc_id then
      (get_document_chunks env (doc_id.getD "")).length else 0) ∧
    (∃ a1 a2 a3,
      coherence_analysis env (format_transcript (load_transcript d))
        (docTextOf env doc_id) = Except.ok a1 ∧
      tone_deception_analysis env (format_transcript (load_transcript d)) =
        Except.ok a2 ∧
      adversarial_summary env (format_transcript (load_transcript d))
        (docTextOf env doc_id) = Except.ok a3 ∧
      r.analyses = [a1, a2, a3]) := by
  unfold run_full_analysis at hok
  cases h1 : coherence_analysis env (format_transcript (load_transcript d))
      (docTextOf env doc_id) with
  | error e => rw [h1] at hok; exact absurd hok (by simp)
  | ok a1 =>
    rw [h1] at hok
    cases h2 : tone_deception_analysis env
        (format_transcript (load_transcript d)) with
    | error e => rw [h2] at hok; exact absurd hok (by simp)
    | ok a2 =>
      rw [h2] at hok
      cases h3 : adversarial_summary env
          (format_transcript (load_transcript d)) (docTextOf env doc_id) with
      | error e => rw [h3] at hok; exact absurd hok (by simp)
      | ok a3 =>
        rw [h3] at hok
        simp only [Except.ok.injEq] at hok
        subst hok
        have ht1 : a1.type = "coherence" := by
          unfold coherence_analysis at h1
          cases hco : call_openai env coherenceSystemPrompt
              (coherenceUserPrompt (format_transcript (load_transcript d))
                (docTextOf env doc_id)) with
          | error e => rw [hco] at h1; exact absurd h1 (by simp)
          | ok c =>
            rw [hco] at h1
            simp only [Except.ok.injEq] at h1
            rw [← h1]
        have ht2 : a2.type = "tone_deception" := by
          unfold tone_deception_analysis at h2
          cases hco : call_openai env toneSystemPrompt
              (toneUserPrompt (format_transcript (load_transcript d))) with
          | error e => rw [hco] at h2; exact absurd h2 (by simp)
          | ok c =>
            rw [hco] at h2
            simp only [Except.ok.injEq] at h2
            rw [← h2]
        have ht3 : a3.type = "adversarial_summary" := by
          unfold adversarial_summary at h3
          cases hco : call_openai env adversarialSystemPrompt
              (adversarialUserPrompt (format_transcript (load_transcript d))
                (docTextOf env doc_id)) with
          | error e => rw [hco] at h3; exact absurd h3 (by simp)
          | ok c =>
            rw [hco] at h3
            simp only [Except.ok.injEq] at h3
            rw [← h3]
        exact ⟨rfl, by simp [ht1, ht2, ht3], rfl, rfl,
          a1, a2, a3, rfl, rfl, rfl, rfl⟩

/-- Environment without an OpenAI key: `call_openai` then returns its
error string rather than raising. -/
def envNoKey : AnalysisEnv :=
  { hasKey := false
    hasSupabase := true
    chat := fun _ _ => none
    docStatus := 200
    docRows := ["c"] }

/-- The string `call_openai` returns when no API key is configured. -/
def noKeyMsg : String := "❌ OPENAI_API_KEY not set"

/-- The report produced by `run_full_analysis` on a one-segment transcript
without an API key or document reference. -/
def reportNoKey : Report :=
  { transcript_segments := 1
    doc_chunks := 0
    analyses := [⟨"coherence", noKeyMsg⟩, ⟨"tone_deception", noKeyMsg⟩,
      ⟨"adversarial_summary", noKeyMsg⟩] }

/-- C5 (witness): the report specification instantiated on a concrete
one-segment transcript. -/
theorem run_full_analysis_spec_witness :
    run_full_analysis envNoKey ⟨some [catSeg]⟩ none = Except.ok reportNoKey ∧
    reportNoKey.analyses.map AnalysisResult.type =
      ["coherence", "tone_deception", "adversarial_summary"] ∧
    reportNoKey.transcript_segments =
      (load_transcript ⟨some [catSeg]⟩).length ∧
    reportNoKey.doc_chunks = (if truthyDocId none then
      List.length (get_document_chunks envNoKey ((none : Option String).getD ""))
      else 0) := by
  have hok : run_full_analysis envNoKey ⟨some [catSeg]⟩ none =
      Except.ok reportNoKey := by rfl
  have h := run_full_analysis_spec envNoKey ⟨some [catSeg]⟩ none reportNoKey hok
  exact ⟨hok, h.2.1, h.2.2.1, h.2.2.2.1⟩

/-- C9: a transcript JSON object with no "segments" key, or with an empty
"segments" list, makes `load_transcript` return the empty list, so the
live context script emits nothing and completes, and the adversarial
analysis script (with a responsive chat API, or no API key at all)
completes normally reporting zero transcript segments. -/
theorem load_transcript_missing_segments_spec (α : Type) (d : TranscriptData)
    (hd : d.segments = none ∨ d.segments = some [])
    (envL : LiveEnv α) (doc_id : String) (top_n : Nat)
    (envA : AnalysisEnv) (docId2 : Option String)
    (hchat : ∀ s u, envA.hasKey = true → (envA.chat s u).isSome) :
    load_transcript d = [] ∧
    process_live_context envL (load_transcript d) doc_id top_n = [] ∧
    ∃ r, run_full_analysis envA d docId2 = Except.ok r ∧
      r.transcript_segments = 0 ∧ r.analyses.length = 3 := by
  have hload : load_transcript d = [] := by
    rcases hd with h | h <;> simp [load_transcript, h]
  refine ⟨hload, by rw [hload]; rfl, ?_⟩
  obtain ⟨c1, hc1⟩ := call_openai_ok envA coherenceSystemPrompt
    (coherenceUserPrompt (format_transcript (load_transcript d))
      (docTextOf envA docId2)) (hchat _ _)
  obtain ⟨c2, hc2⟩ := call_openai_ok envA toneSystemPrompt
    (toneUserPrompt (format_transcript (load_transcript d))) (hchat _ _)
  obtain ⟨c3, hc3⟩ := call_openai_ok envA adversarialSystemPrompt
    (adversarialUserPrompt (format_transcript (load_transcript d))
      (docTextOf envA docId2)) (hchat _ _)
  have hrun : run_full_analysis envA d docId2 = Except.ok
      { transcript_segments := (load_transcript d).length
        doc_chunks := if truthyDocId docId2 then
          (get_document_chunks envA (docId2.getD "")).length else 0
        analyses := [⟨"coherence", c1⟩, ⟨"tone_deception", c2⟩,
          ⟨"adversarial_summary", c3⟩] } := by
    unfold run_full_analysis coherence_analysis tone_deception_analysis
      adversarial_summary
    rw [hc1, hc2, hc3]
  refine ⟨_, hrun, ?_, rfl⟩
  show (load_transcript d).length = 0
  rw [hload]
  rfl

/-- C9 (witness): the behaviour on a transcript JSON with no "segments"
key, instantiated concretely for both scripts. -/
theorem load_transcript_missing_segments_spec_witness :
    ((⟨none⟩ : TranscriptData).segments = none ∨
      (⟨none⟩ : TranscriptData).segments = some []) ∧
    load_transcript ⟨none⟩ = [] ∧
    process_live_context envLive (load_transcript ⟨none⟩) "doc" 3 = [] ∧
    ∃ r, run_full_analysis envNoKey ⟨none⟩ none = Except.ok r ∧
      r.transcript_segments = 0 ∧ r.analyses.length = 3 := by
  have h := load_transcript_missing_segments_spec String ⟨none⟩ (Or.inl rfl)
    envLive "doc" 3 envNoKey none (fun s u hk => absurd hk (by decide))
  exact ⟨Or.inl rfl, h.1, h.2.1, h.2.2⟩

/-! ## Transcription script (transcribe_diarize.py)

Both paths format each model segment into a four-field JSON object.  The
speech model's raw segments are modelled by `Segment` (each field may be
absent); the JSON rows written to the output file are association lists of
key/value pairs so that "exactly these four fields" is expressible. -/

inductive JVal where
  | num (q : ℚ)
  | str (s : String)
deriving DecidableEq

/-- `str.strip()` at the `String` level. -/
def pyStripStr (s : String) : String := ⟨pyStrip s.data⟩

/-- One formatted segment of the WhisperX path (lines 44-51):
`round(seg.get("start", 0), 2)`, `round(seg.get("end", 0), 2)`,
`seg.get("speaker", "SPEAKER_00")`, `seg.get("text", "").strip()`. -/
def format_segment_whisperx (seg : Segment) : List (String × JVal) :=
  [("start", JVal.num (round2 (seg.start.getD 0))),
   ("end", JVal.num (round2 (seg.stop.getD 0))),
   ("speaker", JVal.str (seg.speaker.getD "SPEAKER_00")),
   ("text", JVal.str (pyStripStr (seg.text.getD "")))]

/-- One formatted segment of the basic-whisper fallback path (lines 72-79):
no diarization, so the speaker label is always "SPEAKER_00". -/
def format_segment_whisper (seg : Segment) : List (String × JVal) :=
  [("start", JVal.num (round2 (seg.start.getD 0))),
   ("end", JVal.num (round2 (seg.stop.getD 0))),
   ("speaker", JVal.str "SPEAKER_00"),
   ("text", JVal.str (pyStripStr (seg.text.getD "")))]

/-- The JSON object written to the output file:
`json.dump({"segments": transcript}, f)`. -/
structure TranscriptOut where
  segments : List (List (String × JVal))
deriving DecidableEq

/-- The WhisperX path of `transcribe_and_diarize`
(`result.get("segments", [])` followed by formatting and the dump). -/
def transcribe_whisperx (result_segments : Option (List Segment)) :
    TranscriptOut :=
  ⟨(result_segments.getD []).map format_segment_whisperx⟩

/-- The whisper fallback path of `transcribe_and_diarize`. -/
def transcribe_whisper (result_segments : Option (List Segment)) :
    TranscriptOut :=
  ⟨(result_segments.getD []).map format_segment_whisper⟩

/-- C6: for every speech-model result, the transcription script writes a
JSON object whose "segments" list has one row per model segment, each with
exactly the four fields "start", "end", "speaker", "text" in which the
timestamps are the model's values rounded to two decimals (half-even,
defaulting to 0 when absent), the text is whitespace-stripped, and the
speaker is "SPEAKER_00" whenever diarization supplies no label (always, on
the basic-whisper path). -/
theorem transcribe_output_spec (raws : List Segment) :
    (transcribe_whisperx (some raws)).segments =
      raws.map format_segment_whisperx ∧
    (transcribe_whisper (some raws)).segments =
      raws.map format_segment_whisper ∧
    (∀ seg : Segment,
      (format_segment_whisperx seg).map Prod.fst =
        ["start", "end", "speaker", "text"] ∧
      (format_segment_whisper seg).map Prod.fst =
        ["start", "end", "speaker", "text"] ∧
      (format_segment_whisperx seg)[(0 : Nat)]? =
        some ("start", JVal.num (round2 (seg.start.getD 0))) ∧
      (format_segment_whisperx seg)[(1 : Nat)]? =
        some ("end", JVal.num (round2 (seg.stop.getD 0))) ∧
      (seg.speaker = none →
        (format_segment_whisperx seg)[(2 : Nat)]? =
          some ("speaker", JVal.str "SPEAKER_00")) ∧
      (format_segment_whisper seg)[(2 : Nat)]? =
        some ("speaker", JVal.str "SPEAKER_00") ∧
      (format_segment_whisperx seg)[(3 : Nat)]? =
        some ("text", JVal.str (pyStripStr (seg.text.getD ""))) ∧
      |round2 (seg.start.getD 0) - seg.start.getD 0| ≤ 1 / 200 ∧
      |round2 (seg.stop.getD 0) - seg.stop.getD 0| ≤ 1 / 200 ∧
      (∃ n : Int, round2 (seg.start.getD 0) = (n : ℚ) / 100) ∧
      (∃ n : Int, round2 (seg.stop.getD 0) = (n : ℚ) / 100)) := by
  refine ⟨rfl, rfl, ?_⟩
  intro seg
  refine ⟨rfl, rfl, rfl, rfl, ?_, rfl, rfl,
    round2_close _, round2_close _, round2_two_decimals _,
    round2_two_decimals _⟩
  intro hnone
  simp [format_segment_whisperx, hnone]

/-- Concrete raw segment for the C6 witness: a fractional start time, no
end, no diarization label, padded text. -/
def rawSeg : Segment :=
  { start := some (1 / 3), stop := none, speaker := none, text := some "  hi  " }

/-- C6 (witness): the formatting specification instantiated on a concrete
one-segment model result, with the rounded values evaluated. -/
theorem transcribe_output_spec_witness :
    (transcribe_whisperx (some [rawSeg])).segments =
      [rawSeg].map format_segment_whisperx ∧
    (format_segment_whisperx rawSeg).map Prod.fst =
      ["start", "end", "speaker", "text"] ∧
    rawSeg.speaker = none ∧
    (format_segment_whisperx rawSeg)[(2 : Nat)]? =
      some ("speaker", JVal.str "SPEAKER_00") ∧
    |round2 ((rawSeg.start).getD 0) - (rawSeg.start).getD 0| ≤ 1 / 200 ∧
    round2 ((rawSeg.start).getD 0) = 33 / 100 ∧
    pyStripStr ((rawSeg.text).getD "") = "hi" := by
  have h := (transcribe_output_spec [rawSeg]).2.2 rawSeg
  exact ⟨(transcribe_output_spec [rawSeg]).1, h.1, rfl, h.2.2.2.2.1 rfl,
    h.2.2.2.2.2.2.2.1, by norm_num [rawSeg, round2, roundHalfEven], by decide⟩

/-! ## Document ingestion pipeline (doc_ingest_chunk_embed.py)

`IngestEnv` records the embeddings response (`none` = the API call errors,
upon which the script exits) and whether the Supabase storage step
completes without raising (individual non-2xx inserts only warn on
stderr).  `extract_text` reads the document file; the extracted text is
the `text` argument here.  A `none` result models `sys.exit(1)`. -/

structure IngestEnv where
  hasKey : Bool
  embedsResp : Option (List (List ℚ))
  storeOk : Bool

set_option linter.unusedVariables false in
/-- Model of `get_embeddings` (lines 63-89): exits (`none`) when the API
key is missing or the request raises. -/
def get_embeddings (env : IngestEnv) (texts : List String) :
    Option (List (List ℚ)) :=
  if env.hasKey = false then none else env.embedsResp

set_option linter.unusedVariables false in
/-- Model of `store_chunks_in_supabase` (lines 92-128): exits (`none`)
when credentials are missing or the storage raises; otherwise returns. -/
def store_chunks_in_supabase (env : IngestEnv) (doc_id : String)
    (chunks : List String) (embeddings : List (List ℚ)) : Option Unit :=
  if env.storeOk then some () else none

/-- The JSON object `ingest_document` prints on success (lines 151-157). -/
structure IngestResult where
  doc_id : String
  chunks_created : Nat
  status : String
deriving DecidableEq

/-- Model of `ingest_document` (lines 131-158): extract text, chunk it
with `chunk_text`, embed, store, and print the result object. -/
def ingest_document (env : IngestEnv) (text : String) (doc_id : String) :
    Option IngestResult :=
  match get_embeddings env (chunk_text text) with
  | none => none
  | some embeddings =>
    match store_chunks_in_supabase env doc_id (chunk_text text) embeddings with
    | none => none
    | some _ =>
      some { doc_id := doc_id
             chunks_created := (chunk_text text).length
             status := "success" }

/-- C7: every successful run of the document ingestion script prints a
JSON object whose `chunks_created` equals the number of chunks produced by
`chunk_text` on the extracted text and whose `status` is "success". -/
theorem ingest_document_spec (env : IngestEnv) (text : String)
    (doc_id : String) (r : IngestResult)
    (hok : ingest_document env text doc_id = some r) :
    r.chunks_created = (chunk_text text).length ∧
    r.status = "success" ∧ r.doc_id = doc_id := by
  unfold ingest_document at hok
  split at hok
  · exact absurd hok (by simp)
  · split at hok
    · exact absurd hok (by simp)
    · simp only [Option.some.injEq] at hok
      subst hok
      exact ⟨rfl, rfl, rfl⟩

/-- Environment for the C7 witness: one embedding per chunk, storage
succeeds. -/
def envIngest : IngestEnv :=
  { hasKey := true
    embedsResp := some [[1]]
    storeOk := true }

/-- C7 (witness): the ingestion report on a concrete two-word document. -/
theorem ingest_document_spec_witness :
    ingest_document envIngest "hello world" "doc7" =
      some { doc_id := "doc7", chunks_created := 1, status := "success" } ∧
    (1 : Nat) = (chunk_text "hello world").length ∧
    ("success" : String) = "success" := by
  have hok : ingest_document envIngest "hello world" "doc7" =
      some { doc_id := "doc7", chunks_created := 1, status := "success" } := by
    decide
  have h := ingest_document_spec envIngest "hello world" "doc7"
    { doc_id := "doc7", chunks_created := 1, status := "success" } hok
  exact ⟨hok, h.1, h.2.1⟩
